import Mathlib

/-!
Verification of the coordinator core of the master_controller repository.

The definitions below are a shallow embedding of the Python source:

* `StableDataExtractor` (stdout → product records) from
  `master_controller_v29.py`, lines 208–324;
* `SQLiteNotificationHistory` (notification cooldown store), lines 342–485;
* `SimpleMemoryDiffSystem` (snapshot-based change detection), lines 490–785;
* `_save_snapshot_file` (atomic snapshot writes), lines 584–600, modelled as
  a sequence of file-system operations;
* `AsyncStableExecutor.execute_stable` (subprocess outcome handling),
  lines 1290–1386;
* `CircuitBreaker` from `hardoff.py`, lines 224–360.

Strings are modelled as Lean `String` / `List Char` (sequences of Unicode
scalar values, matching Python's code-point strings).  Wall-clock instants
are modelled as `Int` seconds.  Python regular-expression searches are
embedded as explicit leftmost-match scanners; for each of the fixed patterns
in the source the greedy backtracking engine coincides with the
maximal-run scanners used here (no pattern has a feasible backtrack, as the
character class of each quantified atom is disjoint from the first character
of what follows it).
-/

namespace MasterController

/-! ### Character-level helpers (Python `str.strip`, `str.lower`, digits) -/

/-- Whitespace as stripped by Python `str.strip` and matched by the regex
class in the source's patterns.  Python also strips a handful of rarer
Unicode space characters; the claims do not depend on those. -/
def pyIsSpace (c : Char) : Bool :=
  c == ' ' || c == '\t' || c == '\n' || c == '\r' || c == '\x0b' ||
  c == '\x0c' || c == '\x85' || c == '\xa0' || c == '　'

/-- Python `str.strip()` on a list of characters. -/
def pyStripList (l : List Char) : List Char :=
  ((l.dropWhile pyIsSpace).reverse.dropWhile pyIsSpace).reverse

/-- Python `str.strip()` on a string. -/
def pyStrip (s : String) : String :=
  String.mk (pyStripList s.data)

/-- A decimal digit as matched by the regex class in the patterns of the
source (ASCII digits and the full-width digits that occur in Japanese
price text; Python's class also admits other Unicode decimal digits,
which the claims do not depend on). -/
def reIsDigit (c : Char) : Bool :=
  c.isDigit || ('０' ≤ c && c ≤ '９')

/-- Numeric value of a digit accepted by `reIsDigit`. -/
def digitVal (c : Char) : Nat :=
  if c.isDigit then c.toNat - 48 else c.toNat - 0xFF10

/-- Decimal value of a digit run. -/
def digitsVal (l : List Char) : Nat :=
  l.foldl (fun a c => a * 10 + digitVal c) 0

/-- Python `int(text)` restricted to the digit strings produced by the
patterns of the source (it fails on the empty string, e.g. when a
matched group consisted of commas only). -/
def parseIntPy (l : List Char) : Option Nat :=
  if l ≠ [] ∧ l.all reIsDigit then some (digitsVal l) else none

/-- Substring test, Python's `needle in hay`. -/
def containsSub : List Char → List Char → Bool
  | [], needle => needle.isEmpty
  | hay@(_ :: t), needle => needle.isPrefixOf hay || containsSub t needle

/-- Worker for `splitOnList`; the fuel (initially the length of the list)
makes the recursion structural, so that it evaluates inside the kernel. -/
def splitOnAux (sep : List Char) : Nat → List Char → List Char →
    List (List Char)
  | _, acc, [] => [acc.reverse]
  | 0, acc, l => [acc.reverse ++ l]
  | fuel + 1, acc, l@(c :: rest) =>
    if sep.isPrefixOf l then
      acc.reverse :: splitOnAux sep fuel [] (l.drop sep.length)
    else splitOnAux sep fuel (c :: acc) rest

/-- Python `str.split(sep)` for a non-empty separator: non-overlapping,
left to right, empty pieces kept. -/
def splitOnList (sep l : List Char) : List (List Char) :=
  if sep = [] then [l] else splitOnAux sep l.length [] l

/-- Join pieces with a separator. -/
def joinWith (sep : List Char) : List (List Char) → List Char
  | [] => []
  | [x] => x
  | x :: xs => x ++ sep ++ joinWith sep xs

/-- Python `str.replace(pat, repl)` (replace all occurrences). -/
def replaceList (pat repl l : List Char) : List Char :=
  joinWith repl (splitOnList pat l)

/-! ### `StableDataExtractor` -/

/-- A product record as built by `_extract_product_from_line` (the source
keeps them as dictionaries with exactly these keys). -/
structure Product where
  name : String
  price : String
  site_name : String
  url : String
  url_index : Nat
  img_url : String
deriving DecidableEq, Repr

/-- `StableDataExtractor.SKIP_KEYWORDS`. -/
def SKIP_KEYWORDS : List String :=
  ["info", "error", "debug", "warning", "log", "traceback",
   "selenium", "driver", "browser", "playwright"]

/-- `StableDataExtractor.MAX_OUTPUT_SIZE`. -/
def MAX_OUTPUT_SIZE : Nat := 1000000

/-- `_should_skip_line`: the lower-cased line contains a noise keyword. -/
def shouldSkipLine (line : List Char) : Bool :=
  SKIP_KEYWORDS.any fun w => containsSub (line.map Char.toLower) w.data

/-- Leftmost match of `([0-9,]+)\s*円` starting exactly at the head of `l`:
the maximal run of ASCII digits and commas, then whitespace, then `円`.
Returns the captured group together with the matched length. -/
def p1MatchAt (l : List Char) : Option (List Char × Nat) :=
  let run := l.takeWhile fun c => c.isDigit || c == ','
  if run.isEmpty then none
  else
    let r1 := l.drop run.length
    let ws := r1.takeWhile pyIsSpace
    match r1.drop ws.length with
    | c :: _ =>
        if c == '円' then some (run, run.length + ws.length + 1) else none
    | [] => none

/-- Leftmost match of `¥\s*([0-9,]+)` starting exactly at the head of `l`. -/
def p2MatchAt (l : List Char) : Option (List Char × Nat) :=
  match l with
  | [] => none
  | c :: rest =>
    if c == '¥' then
      let ws := rest.takeWhile pyIsSpace
      let run := (rest.drop ws.length).takeWhile fun c => c.isDigit || c == ','
      if run.isEmpty then none else some (run, 1 + ws.length + run.length)
    else none

/-- Leftmost match of `(\d{4,})\s*円` starting exactly at the head of `l`. -/
def p3MatchAt (l : List Char) : Option (List Char × Nat) :=
  let run := l.takeWhile reIsDigit
  if run.length < 4 then none
  else
    let r1 := l.drop run.length
    let ws := r1.takeWhile pyIsSpace
    match r1.drop ws.length with
    | c :: _ =>
        if c == '円' then some (run, run.length + ws.length + 1) else none
    | [] => none

/-- `re.search`: try the matcher at every start position, leftmost first. -/
def reSearch (m : List Char → Option (List Char × Nat)) :
    List Char → Option (List Char × Nat)
  | [] => m []
  | l@(_ :: rest) =>
    match m l with
    | some r => some r
    | none => reSearch m rest

/-- Worker for `subAll`; fuel (initially the length of the list) makes
the recursion structural. -/
def subAllAux (m : List Char → Option (List Char × Nat)) :
    Nat → List Char → List Char
  | _, [] => []
  | 0, l => l
  | fuel + 1, c :: rest =>
    match m (c :: rest) with
    | some (_, n) =>
      if n = 0 then c :: subAllAux m fuel rest
      else subAllAux m fuel (rest.drop (n - 1))
    | none => c :: subAllAux m fuel rest

/-- `re.sub(pattern, '', text)`: delete every non-overlapping leftmost
match (each of the source's patterns matches at least one character). -/
def subAll (m : List Char → Option (List Char × Nat)) (l : List Char) :
    List Char :=
  subAllAux m l.length l

/-- Worker for `collapseRuns`; the flag records whether the previous
character belonged to a run (Python `re.sub` replaces each maximal run
with a single occurrence of the replacement). -/
def collapseRunsAux (p : Char → Bool) (rep : Char) : Bool → List Char → List Char
  | _, [] => []
  | inRun, c :: rest =>
    if p c then
      if inRun then collapseRunsAux p rep true rest
      else rep :: collapseRunsAux p rep true rest
    else c :: collapseRunsAux p rep false rest

/-- `re.sub(class+, rep, text)`: replace each maximal run of characters
satisfying `p` by the single character `rep`. -/
def collapseRuns (p : Char → Bool) (rep : Char) (l : List Char) : List Char :=
  collapseRunsAux p rep false l

/-- One pattern attempt inside `_extract_price`: search, strip commas from
the captured group, parse, and keep the value only if it lies in
`[100, 10_000_000]` (otherwise the source falls through to the next
pattern). -/
def tryPat (m : List Char → Option (List Char × Nat)) (l : List Char) :
    Option Nat :=
  match reSearch m l with
  | none => none
  | some (g, _) =>
    match parseIntPy (g.filter fun c => c ≠ ',') with
    | none => none
    | some v => if 100 ≤ v ∧ v ≤ 10000000 then some v else none

/-- `StableDataExtractor._extract_price`. -/
def extract_price (l : List Char) : Option Nat :=
  match tryPat p1MatchAt l with
  | some v => some v
  | none =>
    match tryPat p2MatchAt l with
    | some v => some v
    | none => tryPat p3MatchAt l

/-- `StableDataExtractor._extract_product_name`: delete every occurrence of
each price pattern, collapse whitespace, then collapse pipe/bar runs. -/
def extract_product_name (l : List Char) : List Char :=
  let n1 := subAll p1MatchAt l
  let n2 := subAll p2MatchAt n1
  let n3 := subAll p3MatchAt n2
  let n4 := pyStripList (collapseRuns pyIsSpace ' ' n3)
  pyStripList (collapseRuns (fun c => c == '|' || c == '│') ' ' n4)

/-- The part of a line left of the first `||` separator (the whole line
when no separator occurs). -/
def namePricePart (line : List Char) : List Char :=
  (splitOnList ("||".data) line).headD line

/-- The part of a line between the first and second `||` separators (empty
when no separator occurs). -/
def imgPart (line : List Char) : List Char :=
  (splitOnList ("||".data) line).getD 1 []

/-- `StableDataExtractor._extract_product_from_line` (line already
stripped). -/
def extractProductFromLine (line : List Char) (siteName : String)
    (urlIndex : Nat) : Option Product :=
  match extract_price (namePricePart line) with
  | none => none
  | some price =>
    if (extract_product_name (namePricePart line)).length ≤ 3 then none
    else some {
      name := String.mk ((extract_product_name (namePricePart line)).take 200)
      price := toString price
      site_name := siteName
      url := "N/A"
      url_index := urlIndex
      img_url := String.mk (imgPart line) }

/-- The literal prefix `---URL_INDEX:` tested by the source. -/
def urlMarkerLit : List Char := "---URL_INDEX:".data

/-- Match of `---URL_INDEX:(\d+)---` starting exactly at the head of `l`. -/
def urlMarkerAt (l : List Char) : Option Nat :=
  if urlMarkerLit.isPrefixOf l then
    let rest := l.drop 13
    let ds := rest.takeWhile reIsDigit
    if ds.isEmpty then none
    else if ("---".data).isPrefixOf (rest.drop ds.length) then
      some (digitsVal ds)
    else none
  else none

/-- `re.search(r'---URL_INDEX:(\d+)---', line)`. -/
def urlIndexSearch : List Char → Option Nat
  | [] => none
  | l@(_ :: rest) =>
    match urlMarkerAt l with
    | some n => some n
    | none => urlIndexSearch rest

/-- The per-line loop of `extract_stable`: strip, skip short lines, track
the `---URL_INDEX:N---` context, skip noise lines, extract records. -/
def extractLoop (site : String) : Nat → List (List Char) → List Product
  | _, [] => []
  | ctx, l :: ls =>
    if (pyStripList l).length < 10 then extractLoop site ctx ls
    else if urlMarkerLit.isPrefixOf (pyStripList l) then
      match urlIndexSearch (pyStripList l) with
      | some n => extractLoop site n ls
      | none => extractLoop site ctx ls
    else if shouldSkipLine (pyStripList l) then extractLoop site ctx ls
    else
      match extractProductFromLine (pyStripList l) site ctx with
      | some p => p :: extractLoop site ctx ls
      | none => extractLoop site ctx ls

/-- Result dictionary of `extract_stable`. -/
structure ExtractResult where
  count : Nat
  success : Bool
  products : List Product
deriving DecidableEq, Repr

/-- `StableDataExtractor.extract_stable`.  Raising `ValueError` on
oversized input is modelled by `Except.error`. -/
def extract_stable (output : String) (scriptName : String) :
    Except String ExtractResult :=
  if MAX_OUTPUT_SIZE < output.length then
    Except.error "output size exceeded"
  else if output = "" ∨ (pyStrip output).length < 10 then
    Except.ok ⟨0, false, []⟩
  else
    let display := String.mk (replaceList (".py".data) [] scriptName.data)
    let ps := extractLoop display 0 (splitOnList ("\n".data) output.data)
    Except.ok ⟨ps.length, decide (0 < ps.length), ps⟩

/-! ### `SQLiteNotificationHistory`

The `notifications` table has `product_key` as PRIMARY KEY, so it is a map
from key to the `notified_at` timestamp; the `site_name` column is never
read back by any query of the source and is omitted.  Timestamps are `Int`
seconds; `timedelta(hours=h)` is `h * 3600` seconds. -/

/-- The notification-history store: product key ↦ `notified_at`. -/
def History : Type := String → Option Int

/-- `SQLiteNotificationHistory.should_notify`: true unless a row for the
key exists with `notified_at > now - cooldown_hours`. -/
def should_notify (hist : History) (now : Int) (key : String)
    (cooldownHours : Int) : Bool :=
  match hist key with
  | none => true
  | some t => decide (t ≤ now - cooldownHours * 3600)

/-- `SQLiteNotificationHistory.add_notification`: `INSERT OR REPLACE` with
`notified_at = now`. -/
def add_notification (hist : History) (now : Int) (key : String) : History :=
  fun k => if k = key then some now else hist k

/-- `SQLiteNotificationHistory.cleanup`: delete rows with
`notified_at < now - retention_hours`. -/
def cleanup (hist : History) (now : Int) (retentionHours : Int) : History :=
  fun k =>
    match hist k with
    | none => none
    | some t => if t < now - retentionHours * 3600 then none else some t

/-! ### `SimpleMemoryDiffSystem`

File I/O (path routing, locking, the atomic write) is modelled separately
below; `detect_new_products` is modelled on the in-memory dictionary that
`_load_snapshot_file` returns and `_save_snapshot_file` persists.  The
MD5-based `_normalize_product_key` is passed in as an opaque key function
`nkey`; the detection algorithm only ever compares its results for
equality. -/

/-- One value of the per-site snapshot dictionary, as written by
`_handle_first_run` / `_update_snapshot`. -/
structure SnapshotEntry where
  first_product_key : String
  first_product_name : String
  first_product_price : String
  first_product_url : String
  timestamp : Int
deriving DecidableEq, Repr

/-- A loaded snapshot file: site name ↦ entry. -/
def SnapshotData : Type := String → Option SnapshotEntry

/-- `SimpleMemoryDiffSystem.NOTIFICATION_COOLDOWN_HOURS`. -/
def NOTIFICATION_COOLDOWN_HOURS : Int := 6

/-- `SimpleMemoryDiffSystem.CLEANUP_THRESHOLD_HOURS`. -/
def CLEANUP_THRESHOLD_HOURS : Int := 24

/-- The per-product loop of `_apply_notification_cooldown`: keep a product
iff `should_notify` holds for its key, recording a notification for each
kept product before examining the next one. -/
def cooldownGo (nkey : Product → String) (now : Int) :
    List Product → History → List Product × History
  | [], h => ([], h)
  | p :: ps, h =>
    if should_notify h now (nkey p) NOTIFICATION_COOLDOWN_HOURS then
      let h1 := add_notification h now (nkey p)
      let r := cooldownGo nkey now ps h1
      (p :: r.1, r.2)
    else cooldownGo nkey now ps h

/-- `SimpleMemoryDiffSystem._apply_notification_cooldown`: run the
cooldown loop, then clean up old history rows when anything survived. -/
def apply_notification_cooldown (nkey : Product → String) (now : Int)
    (newProducts : List Product) (hist : History) :
    List Product × History :=
  if newProducts.isEmpty then ([], hist)
  else if (cooldownGo nkey now newProducts hist).1.isEmpty then
    cooldownGo nkey now newProducts hist
  else
    ((cooldownGo nkey now newProducts hist).1,
     cleanup (cooldownGo nkey now newProducts hist).2 now
       CLEANUP_THRESHOLD_HOURS)

/-- `SimpleMemoryDiffSystem._update_snapshot` (also the entry written by
`_handle_first_run`, which builds the identical dictionary). -/
def update_snapshot (nkey : Product → String) (now : Int) (site : String)
    (currentFirst : Product) (scrapingUrl : String) (data : SnapshotData) :
    SnapshotData :=
  fun s =>
    if s = site then
      some { first_product_key := nkey currentFirst
             first_product_name := currentFirst.name
             first_product_price := currentFirst.price
             first_product_url := scrapingUrl
             timestamp := now }
    else data s

/-- `SimpleMemoryDiffSystem.detect_new_products`.  Returns the notifiable
new products together with the updated snapshot dictionary and
notification history. -/
def detect_new_products (nkey : Product → String) (now : Int) (site : String)
    (products : List Product) (scrapingUrl : String)
    (data : SnapshotData) (hist : History) :
    List Product × SnapshotData × History :=
  match products with
  | [] => ([], data, hist)
  | p0 :: _ =>
    match data site with
    | none =>
      ([], update_snapshot nkey now site p0 scrapingUrl data, hist)
    | some snap =>
      if nkey p0 = snap.first_product_key then
        ([], fun s => if s = site then some { snap with timestamp := now }
                      else data s,
         hist)
      else
        let pos := products.findIdx? fun p =>
          decide (nkey p = snap.first_product_key)
        let newProducts :=
          match pos with
          | none => products.take 20
          | some 0 => []
          | some (k + 1) => products.take (k + 1)
        let data1 := update_snapshot nkey now site p0 scrapingUrl data
        let r := apply_notification_cooldown nkey now newProducts hist
        (r.1, data1, r.2)

/-! ### `_save_snapshot_file` as file-system operations

The atomic write is modelled as a list of primitive file-system steps; a
crash is an arbitrary prefix of that list.  `fsync`/`flush` do not change
the content map. -/

/-- Primitive file-system operations. -/
inductive FsOp where
  | create (path : String)
  | append (path : String) (chunk : String)
  | fsyncOp (path : String)
  | rename (src : String) (dst : String)
deriving DecidableEq, Repr

/-- File-system state: path ↦ content. -/
def FS : Type := String → Option String

/-- Effect of one operation on the file-system state. -/
def applyFsOp (fs : FS) : FsOp → FS
  | .create p => fun q => if q = p then some "" else fs q
  | .append p s => fun q => if q = p then some ((fs p).getD "" ++ s) else fs q
  | .fsyncOp _ => fs
  | .rename src dst =>
      fun q => if q = dst then fs src else if q = src then none else fs q

/-- Effect of a sequence of operations. -/
def applyFsOps (fs : FS) (ops : List FsOp) : FS :=
  ops.foldl applyFsOp fs

/-- `pathlib.PurePath.with_suffix` applied to the final path component:
drop the extension (the part from the last dot, unless that dot is the
first character of the component) and append the new suffix. -/
def withSuffix (p : String) (suffix : String) : String :=
  let parts := splitOnList ("/".data) p.data
  let seg := (parts.getLast?).getD []
  let r := seg.reverse.dropWhile fun c => c ≠ '.'
  let stem :=
    match r with
    | [] => seg
    | _ :: rest => if rest = [] then seg else rest.reverse
  let newSeg := stem ++ suffix.data
  String.mk (joinWith ("/".data) (parts.dropLast ++ [newSeg]))

/-- `SimpleMemoryDiffSystem._save_snapshot_file` as an operation list:
truncate-create the `.tmp` sibling, write the serialized chunks, fsync,
then rename over the target. -/
def save_snapshot_ops (filepath : String) (chunks : List String) :
    List FsOp :=
  let tmp := withSuffix filepath ".tmp"
  FsOp.create tmp :: chunks.map (FsOp.append tmp) ++
    [FsOp.fsyncOp tmp, FsOp.rename tmp filepath]

/-! ### `AsyncStableExecutor.execute_stable` -/

/-- Outcome of `_run_subprocess` as seen by `execute_stable`: normal
completion, `subprocess.TimeoutExpired` (carrying whatever the child had
flushed to stdout before being killed), or some other exception. -/
inductive SubprocOutcome where
  | completed (returncode : Int) (stdout : String)
  | timedOut (truncatedStdout : String)
  | raised (message : String)
deriving DecidableEq, Repr

/-- `ExecutionResult` (the `data` dictionary flattened into the record
count and product list it carries; a missing `products` key is the empty
list). -/
structure ExecutionResult where
  success : Bool
  error : Option String
  count : Nat
  products : List Product
deriving DecidableEq, Repr

/-- `AsyncStableExecutor.execute_stable`, starting from the subprocess
outcome (the script-existence, block-list and semaphore pre-checks are
not modelled).  On timeout the source returns `data={'count': 0}` without
touching the captured stdout; the `ValueError` raised by the extractor on
oversized output reaches the generic exception handler. -/
def execute_stable (outcome : SubprocOutcome) (scriptName : String) :
    ExecutionResult :=
  match outcome with
  | .completed rc out =>
    match extract_stable out scriptName with
    | .ok d =>
      { success := rc == 0 && d.success, error := none,
        count := d.count, products := d.products }
    | .error msg =>
      { success := false, error := some msg, count := 0, products := [] }
  | .timedOut _ =>
    { success := false, error := some "timeout", count := 0, products := [] }
  | .raised msg =>
    { success := false, error := some msg, count := 0, products := [] }

/-! ### `CircuitBreaker` (`hardoff.py`)

`Constants.CB_FAILURE_THRESHOLD = 5`, `CB_RECOVERY_TIMEOUT_SECONDS = 30`;
the HALF_OPEN → CLOSED success count 3 is hard-coded in
`record_success`.  The breaker is modelled per `url_key`: one
`CircuitBreakerState` driven by the three public operations, with
`datetime.now()` passed in as an `Int` parameter. -/

inductive CircuitState where
  | CLOSED
  | OPEN
  | HALF_OPEN
deriving DecidableEq, Repr

structure CircuitBreakerState where
  state : CircuitState := .CLOSED
  failure_count : Nat := 0
  last_failure_time : Option Int := none
  half_open_call_count : Nat := 0
deriving DecidableEq, Repr

/-- The fresh state `_get_state` creates for an unseen key. -/
def cbInit : CircuitBreakerState := {}

/-- `CircuitBreaker._check_transition`. -/
def check_transition (recoveryTimeout now : Int)
    (s : CircuitBreakerState) : CircuitBreakerState :=
  match s.state, s.last_failure_time with
  | .OPEN, some t =>
    if recoveryTimeout ≤ now - t then
      { s with state := .HALF_OPEN, half_open_call_count := 0 }
    else s
  | _, _ => s

/-- `CircuitBreaker.can_execute`: runs the transition check, then reports
whether the (possibly updated) state is not OPEN. -/
def can_execute (recoveryTimeout now : Int) (s : CircuitBreakerState) :
    Bool × CircuitBreakerState :=
  let s1 := check_transition recoveryTimeout now s
  (decide (s1.state ≠ .OPEN), s1)

/-- `CircuitBreaker.record_success`. -/
def record_success (s : CircuitBreakerState) : CircuitBreakerState :=
  match s.state with
  | .HALF_OPEN =>
    if 3 ≤ s.half_open_call_count + 1 then
      { s with state := .CLOSED, failure_count := 0,
               half_open_call_count := s.half_open_call_count + 1 }
    else { s with half_open_call_count := s.half_open_call_count + 1 }
  | .CLOSED => { s with failure_count := 0 }
  | .OPEN => s

/-- `CircuitBreaker.record_failure`: increment the failure count, stamp
the failure time, then open the breaker if the state was HALF_OPEN or the
incremented count reaches the threshold (the source reads the condition
off the incremented intermediate state `s1`; it is inlined here). -/
def record_failure (failureThreshold : Nat) (now : Int)
    (s : CircuitBreakerState) : CircuitBreakerState :=
  if s.state = .HALF_OPEN ∨ failureThreshold ≤ s.failure_count + 1 then
    { s with failure_count := s.failure_count + 1,
             last_failure_time := some now, state := .OPEN }
  else
    { s with failure_count := s.failure_count + 1,
             last_failure_time := some now }

/-- One call to the breaker's public API. -/
inductive CBEvent where
  | success
  | failure (t : Int)
  | canExec (t : Int)
deriving DecidableEq, Repr

/-- Effect of one API call on the per-key state. -/
def cbStep (th : Nat) (reco : Int) (s : CircuitBreakerState) :
    CBEvent → CircuitBreakerState
  | .success => record_success s
  | .failure t => record_failure th t s
  | .canExec t => (can_execute reco t s).2

/-- Effect of a call sequence. -/
def cbRun (th : Nat) (reco : Int) (s : CircuitBreakerState)
    (tr : List CBEvent) : CircuitBreakerState :=
  tr.foldl (cbStep th reco) s

/-- Number of failures recorded since the last success
(`can_execute` calls are transparent), starting from `n` pending ones. -/
def consecFailures : Nat → List CBEvent → Nat
  | n, [] => n
  | _, .success :: tr => consecFailures 0 tr
  | n, .failure _ :: tr => consecFailures (n + 1) tr
  | n, .canExec _ :: tr => consecFailures n tr

/-- Timestamp of the last recorded failure in a call sequence. -/
def lastFailureAt : Option Int → List CBEvent → Option Int
  | a, [] => a
  | _, .failure t :: tr => lastFailureAt (some t) tr
  | a, .success :: tr => lastFailureAt a tr
  | a, .canExec _ :: tr => lastFailureAt a tr

/-! ### Specification-level description of the URL_INDEX grammar

The following definitions follow the wording of the specification ("a line
matching `---URL_INDEX:<int>---` sets the current url_index context for
subsequent lines, default 0; other lines produce at most one record tagged
with the current context; output preserves input line order"), to be
compared with `extractLoop` above. -/

/-- A marker line: its stripped form starts with `---URL_INDEX:` and
contains a full `---URL_INDEX:<int>---` occurrence; yields the new
context. -/
def markerOf (l : List Char) : Option Nat :=
  if urlMarkerLit.isPrefixOf (pyStripList l) then
    urlIndexSearch (pyStripList l)
  else none

/-- The record produced by a single line under context `c`: nothing for
short lines, marker lines and noise lines, otherwise the extracted
product. -/
def recordOf (site : String) (c : Nat) (l : List Char) : Option Product :=
  if (pyStripList l).length < 10 then none
  else if urlMarkerLit.isPrefixOf (pyStripList l) then none
  else if shouldSkipLine (pyStripList l) then none
  else extractProductFromLine (pyStripList l) site c

/-- Pair every line with the context current when it is read: markers
update the context for the lines after them. -/
def annotateCtx (c : Nat) : List (List Char) → List (List Char × Nat)
  | [] => []
  | l :: ls => (l, c) :: annotateCtx ((markerOf l).getD c) ls

/-- Context after reading a list of lines, starting from `c`: the value of
the most recent marker, if any. -/
def ctxFold (c : Nat) (lines : List (List Char)) : Nat :=
  lines.foldl (fun acc l => (markerOf l).getD acc) c

/-- Specification-level extraction: each line, in order, contributes its
record tagged with the context current at that line (initially 0). -/
def specRecords (site : String) (lines : List (List Char)) : List Product :=
  (annotateCtx 0 lines).filterMap fun lc => recordOf site lc.2 lc.1

/-! ### Concrete instances used by witnesses and counterexamples -/

/-- Serialized snapshot content used by the save-atomicity witness. -/
def concatChunks (chunks : List String) : String :=
  chunks.foldl (fun a c => a ++ c) ""

/-- A simple concrete key function (products with equal names collide,
exactly as they do under the source's MD5 of the normalized name). -/
def nameKey : Product → String := fun p => p.name

/-- An empty snapshot dictionary. -/
def emptySnapshots : SnapshotData := fun _ => none

/-- An empty notification history. -/
def emptyHistory : History := fun _ => none

def demoProduct : Product :=
  { name := "Leica M6 black", price := "280000", site_name := "AlphaCam",
    url := "N/A", url_index := 0, img_url := "" }

def demoProduct2 : Product :=
  { name := "Nikon F3", price := "45000", site_name := "AlphaCam",
    url := "N/A", url_index := 0, img_url := "" }

/-- Two distinct records sharing a normalized key (same name). -/
def dupProductA : Product :=
  { name := "Canon AE-1", price := "30000", site_name := "AlphaCam",
    url := "N/A", url_index := 0, img_url := "" }

def dupProductB : Product :=
  { name := "Canon AE-1", price := "31000", site_name := "AlphaCam",
    url := "N/A", url_index := 0, img_url := "" }

/-- A remembered snapshot whose leader key matches none of the products
above. -/
def staleSnap : SnapshotEntry :=
  { first_product_key := "Old Leader Gone", first_product_name := "old",
    first_product_price := "100", first_product_url := "u", timestamp := 0 }

/-- Snapshot dictionary remembering `staleSnap` for site `AlphaCam`. -/
def staleSnapshots : SnapshotData :=
  fun s => if s = "AlphaCam" then some staleSnap else none

/-- A remembered snapshot whose leader is `demoProduct` (under `nameKey`). -/
def leaderSnap : SnapshotEntry :=
  { first_product_key := "Leica M6 black",
    first_product_name := "Leica M6 black",
    first_product_price := "280000", first_product_url := "u",
    timestamp := 0 }

/-- Snapshot dictionary remembering `leaderSnap` for site `AlphaCam`. -/
def leaderSnapshots : SnapshotData :=
  fun s => if s = "AlphaCam" then some leaderSnap else none

/-- A history with one old entry, for the cooldown witness. -/
def histOneOld : History :=
  fun k => if k = "k1" then some 1000 else none

/-- Partial stdout a timed-out scraper had flushed before being killed. -/
def timeoutPartialOut : String := "Nikon FM2 35000円"

/-- The record the extractor yields from `timeoutPartialOut`. -/
def nikonRecord : Product :=
  { name := "Nikon FM2", price := "35000", site_name := "hardoff",
    url := "N/A", url_index := 0, img_url := "" }

/-- The raw-stdout scenario of the specification (§8). -/
def markerScenario : String :=
  "---URL_INDEX:1---\nNikon FM2 35,000円\nDEBUG: fetched 10 items\n"

/-- The record the extractor yields from `markerScenario`. -/
def scanRecord : Product :=
  { name := "Nikon FM2", price := "35000", site_name := "scan",
    url := "N/A", url_index := 1, img_url := "" }

/-- A concrete pre-save file system for the atomicity witness. -/
def fsBefore : FS :=
  fun p => if p = "snapshots/p2_shared.json" then some "old" else none

/-- A history in which `dupProductA`'s key was notified recently. -/
def recentHistory : History :=
  fun k => if k = "Canon AE-1" then some 400 else none

/-! ## Claims -/

/-- C10: calling `detect_new_products` with an empty record list returns
the empty list and performs no snapshot write: the snapshot dictionary
(including every entry's timestamp) and the notification history are
returned entirely unchanged. -/
theorem C10_detect_empty_is_noop (nkey : Product → String) (now : Int)
    (site url : String) (data : SnapshotData) (hist : History) :
    detect_new_products nkey now site [] url data hist = ([], data, hist) :=
  rfl

/-- C3: with no existing snapshot entry for the site and a non-empty
record list, the first `detect_new_products` call returns the empty list,
leaves the notification history unchanged, and persists a snapshot entry
whose leader is the first record (its normalized key, name and price),
stamped with the current time. -/
theorem C3_first_run_returns_empty (nkey : Product → String) (now : Int)
    (site url : String) (p0 : Product) (rest : List Product)
    (data : SnapshotData) (hist : History)
    (habsent : data site = none) :
    detect_new_products nkey now site (p0 :: rest) url data hist =
      ([], update_snapshot nkey now site p0 url data, hist)
    ∧ update_snapshot nkey now site p0 url data site =
        some { first_product_key := nkey p0, first_product_name := p0.name,
               first_product_price := p0.price, first_product_url := url,
               timestamp := now } := by
  refine ⟨?_, ?_⟩
  · simp [detect_new_products, habsent]
  · simp [update_snapshot]

/-- Witness for C3 at a concrete cold-start input. -/
theorem C3_first_run_returns_empty_witness :
    detect_new_products nameKey 100 "AlphaCam" [demoProduct, demoProduct2]
        "u" emptySnapshots emptyHistory =
      ([], update_snapshot nameKey 100 "AlphaCam" demoProduct "u"
             emptySnapshots, emptyHistory)
    ∧ update_snapshot nameKey 100 "AlphaCam" demoProduct "u" emptySnapshots
        "AlphaCam" =
      some { first_product_key := nameKey demoProduct,
             first_product_name := demoProduct.name,
             first_product_price := demoProduct.price,
             first_product_url := "u", timestamp := 100 } :=
  C3_first_run_returns_empty nameKey 100 "AlphaCam" "u" demoProduct
    [demoProduct2] emptySnapshots emptyHistory rfl

/-- C2: when the remembered leader key equals the normalized key of the
current first record, `detect_new_products` returns the empty list, leaves
the notification history unchanged, and rewrites the site's entry with the
leader key, name and price unchanged and only the timestamp advanced;
calling it again on the same list again returns empty and again only
touches the timestamp, so the leader key is idempotent. -/
theorem C2_leader_unchanged_idempotent (nkey : Product → String)
    (now now2 : Int) (site url : String) (p0 : Product)
    (rest : List Product) (data : SnapshotData) (hist : History)
    (snap : SnapshotEntry)
    (hsnap : data site = some snap)
    (hkey : nkey p0 = snap.first_product_key) :
    (detect_new_products nkey now site (p0 :: rest) url data hist).1 = []
    ∧ (detect_new_products nkey now site (p0 :: rest) url data hist).2.1
        site = some { snap with timestamp := now }
    ∧ (detect_new_products nkey now site (p0 :: rest) url data hist).2.2
        = hist
    ∧ (detect_new_products nkey now2 site (p0 :: rest) url
        (detect_new_products nkey now site (p0 :: rest) url data hist).2.1
        (detect_new_products nkey now site (p0 :: rest) url data hist).2.2
       ).1 = []
    ∧ (detect_new_products nkey now2 site (p0 :: rest) url
        (detect_new_products nkey now site (p0 :: rest) url data hist).2.1
        (detect_new_products nkey now site (p0 :: rest) url data hist).2.2
       ).2.1 site = some { snap with timestamp := now2 } := by
  have h1 : detect_new_products nkey now site (p0 :: rest) url data hist =
      ([], fun s => if s = site then some { snap with timestamp := now }
                    else data s,
       hist) := by
    simp [detect_new_products, hsnap, hkey]
  refine ⟨by rw [h1], by rw [h1]; simp, by rw [h1], ?_, ?_⟩
  · rw [h1]
    simp [detect_new_products, hkey]
  · rw [h1]
    simp [detect_new_products, hkey]

/-- Witness for C2 at a concrete input whose leader is unchanged. -/
theorem C2_leader_unchanged_idempotent_witness :
    (detect_new_products nameKey 200 "AlphaCam" [demoProduct, demoProduct2]
        "u" leaderSnapshots emptyHistory).1 = []
    ∧ (detect_new_products nameKey 200 "AlphaCam"
        [demoProduct, demoProduct2] "u" leaderSnapshots emptyHistory).2.1
        "AlphaCam" = some { leaderSnap with timestamp := 200 }
    ∧ (detect_new_products nameKey 200 "AlphaCam"
        [demoProduct, demoProduct2] "u" leaderSnapshots emptyHistory).2.2
        = emptyHistory
    ∧ (detect_new_products nameKey 300 "AlphaCam"
        [demoProduct, demoProduct2] "u"
        (detect_new_products nameKey 200 "AlphaCam"
          [demoProduct, demoProduct2] "u" leaderSnapshots emptyHistory).2.1
        (detect_new_products nameKey 200 "AlphaCam"
          [demoProduct, demoProduct2] "u" leaderSnapshots emptyHistory).2.2
       ).1 = []
    ∧ (detect_new_products nameKey 300 "AlphaCam"
        [demoProduct, demoProduct2] "u"
        (detect_new_products nameKey 200 "AlphaCam"
          [demoProduct, demoProduct2] "u" leaderSnapshots emptyHistory).2.1
        (detect_new_products nameKey 200 "AlphaCam"
          [demoProduct, demoProduct2] "u" leaderSnapshots emptyHistory).2.2
       ).2.1 "AlphaCam" = some { leaderSnap with timestamp := 300 } :=
  C2_leader_unchanged_idempotent nameKey 200 300 "AlphaCam" "u" demoProduct
    [demoProduct2] leaderSnapshots emptyHistory leaderSnap rfl rfl

/-- C6: `should_notify` returns false exactly when a record for the key
exists with `notified_at` inside the 6-hour cooldown window; it returns
false for a key just recorded via `add_notification`, and true again for a
key whose stored timestamp is at least 6 hours old. -/
theorem C6_should_notify_cooldown (hist : History) (now : Int)
    (key : String) :
    (should_notify hist now key NOTIFICATION_COOLDOWN_HOURS = false ↔
      ∃ t, hist key = some t ∧ now - 6 * 3600 < t)
    ∧ should_notify (add_notification hist now key) now key
        NOTIFICATION_COOLDOWN_HOURS = false
    ∧ ∀ t, hist key = some t → t ≤ now - 6 * 3600 →
        should_notify hist now key NOTIFICATION_COOLDOWN_HOURS = true := by
  refine ⟨?_, ?_, ?_⟩
  · unfold should_notify NOTIFICATION_COOLDOWN_HOURS
    cases h : hist key with
    | none => simp [h]
    | some t =>
      simp only [h, decide_eq_false_iff_not, not_le, Option.some.injEq]
      constructor
      · intro hlt
        exact ⟨t, rfl, by omega⟩
      · rintro ⟨t', ht', hlt⟩
        omega
  · unfold should_notify add_notification NOTIFICATION_COOLDOWN_HOURS
    simp
  · intro t ht hle
    unfold should_notify NOTIFICATION_COOLDOWN_HOURS
    rw [ht]
    simpa using by omega

/-- Witness for C6: an entry older than the cooldown allows notification
again, and a freshly recorded key is blocked. -/
theorem C6_should_notify_cooldown_witness :
    should_notify histOneOld 100000 "k1" NOTIFICATION_COOLDOWN_HOURS = true
    ∧ should_notify (add_notification histOneOld 100000 "k1") 100000 "k1"
        NOTIFICATION_COOLDOWN_HOURS = false :=
  ⟨(C6_should_notify_cooldown histOneOld 100000 "k1").2.2 1000 rfl
     (by decide),
   (C6_should_notify_cooldown histOneOld 100000 "k1").2.1⟩

/-- `applyFsOps` distributes over list append. -/
theorem applyFsOps_append (fs : FS) (xs ys : List FsOp) :
    applyFsOps fs (xs ++ ys) = applyFsOps (applyFsOps fs xs) ys := by
  simp [applyFsOps, List.foldl_append]

/-- `applyFsOps` on a cons. -/
theorem applyFsOps_cons (fs : FS) (op : FsOp) (ops : List FsOp) :
    applyFsOps fs (op :: ops) = applyFsOps (applyFsOp fs op) ops := rfl

/-- Operations that only touch the temporary file leave every other path
unchanged. -/
theorem applyFsOps_preserves_other (tmp : String) (ops : List FsOp)
    (hops : ∀ op ∈ ops,
      op = FsOp.create tmp ∨ (∃ s, op = FsOp.append tmp s) ∨
      ∃ q, op = FsOp.fsyncOp q) :
    ∀ (fs : FS) (q : String), q ≠ tmp → applyFsOps fs ops q = fs q := by
  induction ops with
  | nil => intro fs q _; rfl
  | cons op rest ih =>
    intro fs q hq
    have hstep : applyFsOp fs op q = fs q := by
      rcases hops op (by simp) with h | ⟨s, h⟩ | ⟨r, h⟩ <;>
        subst h <;> simp [applyFsOp, hq]
    have hrest : ∀ op ∈ rest,
        op = FsOp.create tmp ∨ (∃ s, op = FsOp.append tmp s) ∨
        ∃ q, op = FsOp.fsyncOp q := by
      intro o ho; exact hops o (by simp [ho])
    calc applyFsOps fs (op :: rest) q
        = applyFsOps (applyFsOp fs op) rest q := rfl
      _ = applyFsOp fs op q := ih hrest (applyFsOp fs op) q hq
      _ = fs q := hstep

/-- Appending the serialized chunks accumulates their concatenation in the
temporary file. -/
theorem applyFsOps_append_run (tmp : String) (chunks : List String) :
    ∀ (fs : FS) (s : String), fs tmp = some s →
      applyFsOps fs (chunks.map (FsOp.append tmp)) tmp =
        some (chunks.foldl (fun a c => a ++ c) s) := by
  induction chunks with
  | nil => intro fs s h; simpa [applyFsOps] using h
  | cons c cs ih =>
    intro fs s h
    have h1 : applyFsOp fs (FsOp.append tmp c) tmp = some (s ++ c) := by
      simp [applyFsOp, h]
    calc applyFsOps fs ((c :: cs).map (FsOp.append tmp)) tmp
        = applyFsOps (applyFsOp fs (FsOp.append tmp c))
            (cs.map (FsOp.append tmp)) tmp := rfl
      _ = some (cs.foldl (fun a c => a ++ c) (s ++ c)) :=
          ih (applyFsOp fs (FsOp.append tmp c)) (s ++ c) h1
      _ = some ((c :: cs).foldl (fun a c => a ++ c) s) := rfl

/-- C7: the snapshot save is atomic.  Every prefix of the operation
sequence that stops before the final rename leaves the target file's
content exactly as it was (intact and parseable); the complete sequence
installs the full new serialization; and any interruption point yields
either the complete old content or the complete new content, never a
truncation. -/
theorem C7_save_snapshot_atomic (filepath : String) (chunks : List String)
    (fs : FS) (hne : withSuffix filepath ".tmp" ≠ filepath) :
    (∀ k, k < (save_snapshot_ops filepath chunks).length →
      applyFsOps fs ((save_snapshot_ops filepath chunks).take k) filepath
        = fs filepath)
    ∧ applyFsOps fs (save_snapshot_ops filepath chunks) filepath
        = some (concatChunks chunks)
    ∧ ∀ k,
        applyFsOps fs ((save_snapshot_ops filepath chunks).take k) filepath
          = fs filepath
        ∨ applyFsOps fs ((save_snapshot_ops filepath chunks).take k)
            filepath = some (concatChunks chunks) := by
  have hq : filepath ≠ withSuffix filepath ".tmp" := Ne.symm hne
  have hops_eq : save_snapshot_ops filepath chunks =
      (FsOp.create (withSuffix filepath ".tmp") ::
        chunks.map (FsOp.append (withSuffix filepath ".tmp")) ++
        [FsOp.fsyncOp (withSuffix filepath ".tmp")]) ++
      [FsOp.rename (withSuffix filepath ".tmp") filepath] := by
    simp [save_snapshot_ops]
  have hpre : ∀ op ∈ FsOp.create (withSuffix filepath ".tmp") ::
      chunks.map (FsOp.append (withSuffix filepath ".tmp")) ++
      [FsOp.fsyncOp (withSuffix filepath ".tmp")],
      op = FsOp.create (withSuffix filepath ".tmp") ∨
      (∃ s, op = FsOp.append (withSuffix filepath ".tmp") s) ∨
      ∃ q, op = FsOp.fsyncOp q := by
    intro op hop
    rcases List.mem_cons.1 hop with h | h
    · exact Or.inl h
    · rcases List.mem_append.1 h with h | h
      · rcases List.mem_map.1 h with ⟨s, _, hs⟩
        exact Or.inr (Or.inl ⟨s, hs.symm⟩)
      · simp only [List.mem_singleton] at h
        exact Or.inr (Or.inr ⟨withSuffix filepath ".tmp", h⟩)
  have hbefore : ∀ k, k < (save_snapshot_ops filepath chunks).length →
      applyFsOps fs ((save_snapshot_ops filepath chunks).take k) filepath
        = fs filepath := by
    intro k hk
    have hsub : (save_snapshot_ops filepath chunks).take k ⊆
        (save_snapshot_ops filepath chunks).dropLast := by
      rw [List.dropLast_eq_take]
      intro x hx
      have hmin : k ⊓ ((save_snapshot_ops filepath chunks).length - 1)
          = k := by omega
      have hx2 : x ∈ List.take k
          (List.take ((save_snapshot_ops filepath chunks).length - 1)
            (save_snapshot_ops filepath chunks)) := by
        rw [List.take_take, hmin]; exact hx
      exact List.take_subset _ _ hx2
    have hdl : (save_snapshot_ops filepath chunks).dropLast =
        FsOp.create (withSuffix filepath ".tmp") ::
        chunks.map (FsOp.append (withSuffix filepath ".tmp")) ++
        [FsOp.fsyncOp (withSuffix filepath ".tmp")] := by
      rw [hops_eq]; exact List.dropLast_concat
    refine applyFsOps_preserves_other (withSuffix filepath ".tmp") _
      (fun op hop => hpre op ?_) fs filepath hq
    rw [← hdl]; exact hsub hop
  have hfull : applyFsOps fs (save_snapshot_ops filepath chunks) filepath
      = some (concatChunks chunks) := by
    rw [hops_eq]
    rw [applyFsOps_append, applyFsOps_cons, applyFsOps_append]
    have hcreate : applyFsOp fs
        (FsOp.create (withSuffix filepath ".tmp"))
        (withSuffix filepath ".tmp") = some "" := by
      simp [applyFsOp]
    have hrun : applyFsOps (applyFsOp fs
        (FsOp.create (withSuffix filepath ".tmp")))
        (chunks.map (FsOp.append (withSuffix filepath ".tmp")))
        (withSuffix filepath ".tmp") =
        some (chunks.foldl (fun a c => a ++ c) "") :=
      applyFsOps_append_run _ chunks _ "" hcreate
    simp only [applyFsOps, List.foldl_cons, List.foldl_nil]
    simpa [applyFsOp, concatChunks] using hrun
  refine ⟨hbefore, hfull, fun k => ?_⟩
  by_cases hk : k < (save_snapshot_ops filepath chunks).length
  · exact Or.inl (hbefore k hk)
  · right
    rw [List.take_of_length_le (by omega)]
    exact hfull

/-- Witness for C7: a concrete interrupted save preserves the old
snapshot, and the completed save installs the new serialization. -/
theorem C7_save_snapshot_atomic_witness :
    applyFsOps fsBefore
        ((save_snapshot_ops "snapshots/p2_shared.json" ["ab", "cd"]).take 2)
        "snapshots/p2_shared.json" = fsBefore "snapshots/p2_shared.json"
    ∧ applyFsOps fsBefore
        (save_snapshot_ops "snapshots/p2_shared.json" ["ab", "cd"])
        "snapshots/p2_shared.json" = some (concatChunks ["ab", "cd"]) :=
  ⟨(C7_save_snapshot_atomic "snapshots/p2_shared.json" ["ab", "cd"]
      fsBefore (by decide)).1 2 (by decide),
   (C7_save_snapshot_atomic "snapshots/p2_shared.json" ["ab", "cd"]
      fsBefore (by decide)).2.1⟩

/-- C8 (amended): a subprocess that exceeds its wall-clock timeout yields
a returned result (no exception escapes), the result reports a failure,
and the partial stdout flushed before the kill is discarded: the result
always carries zero records, whatever the child had printed. -/
theorem C8_timeout_reports_failure (truncatedOut scriptName : String) :
    execute_stable (SubprocOutcome.timedOut truncatedOut) scriptName =
      { success := false, error := some "timeout", count := 0,
        products := [] } :=
  rfl

/-- C8 counterexample to the claim as stated: this partial stdout parses
to one product record, yet the timed-out execution result carries no
records at all (`count = 0`, empty product list). -/
theorem C8_counterexample_partial_not_parsed :
    extract_stable timeoutPartialOut "hardoff.py" =
      Except.ok { count := 1, success := true, products := [nikonRecord] }
    ∧ (execute_stable (SubprocOutcome.timedOut timeoutPartialOut)
        "hardoff.py").products = []
    ∧ (execute_stable (SubprocOutcome.timedOut timeoutPartialOut)
        "hardoff.py").success = false := by
  refine ⟨by rfl, rfl, rfl⟩

/-- `cbRun` on a cons. -/
theorem cbRun_cons (th : Nat) (reco : Int) (s : CircuitBreakerState)
    (e : CBEvent) (tr : List CBEvent) :
    cbRun th reco s (e :: tr) = cbRun th reco (cbStep th reco s e) tr := rfl

/-- `record_success` never changes the last-failure time. -/
theorem record_success_lft (s : CircuitBreakerState) :
    (record_success s).last_failure_time = s.last_failure_time := by
  obtain ⟨st, fc, lft, hoc⟩ := s
  cases st <;> simp [record_success]
  split <;> rfl

/-- `record_failure` stamps the last-failure time with the current time. -/
theorem record_failure_lft (th : Nat) (t : Int) (s : CircuitBreakerState) :
    (record_failure th t s).last_failure_time = some t := by
  unfold record_failure
  split <;> rfl

/-- `can_execute` never changes the last-failure time. -/
theorem can_execute_lft (reco t : Int) (s : CircuitBreakerState) :
    ((can_execute reco t s).2).last_failure_time = s.last_failure_time := by
  obtain ⟨st, fc, lft, hoc⟩ := s
  cases st <;> cases lft <;> simp [can_execute, check_transition]
  split <;> rfl

/-- If `record_success` leaves (or makes) the breaker CLOSED, the failure
counter is zero afterwards. -/
theorem record_success_closed_fc (s : CircuitBreakerState) :
    (record_success s).state = .CLOSED →
      (record_success s).failure_count = 0 := by
  obtain ⟨st, fc, lft, hoc⟩ := s
  cases st <;> simp [record_success]
  split <;> simp

/-- `record_success` yields OPEN only from OPEN. -/
theorem record_success_open (s : CircuitBreakerState) :
    (record_success s).state = .OPEN → s.state = .OPEN := by
  obtain ⟨st, fc, lft, hoc⟩ := s
  cases st <;> simp [record_success]
  split <;> simp

/-- If `record_failure` leaves the breaker CLOSED it was CLOSED before,
and the counter was incremented. -/
theorem record_failure_closed (th : Nat) (t : Int)
    (s : CircuitBreakerState) :
    (record_failure th t s).state = .CLOSED →
      s.state = .CLOSED ∧
      (record_failure th t s).failure_count = s.failure_count + 1 := by
  unfold record_failure
  split
  · intro h; cases h
  · intro h; exact ⟨h, rfl⟩

/-- If `can_execute` leaves the breaker CLOSED it was CLOSED before, with
the same failure counter. -/
theorem can_execute_closed (reco t : Int) (s : CircuitBreakerState) :
    ((can_execute reco t s).2).state = .CLOSED →
      s.state = .CLOSED ∧
      ((can_execute reco t s).2).failure_count = s.failure_count := by
  obtain ⟨st, fc, lft, hoc⟩ := s
  cases st <;> cases lft <;> simp [can_execute, check_transition]
  split <;> simp

/-- If `can_execute` leaves the breaker OPEN it was OPEN before. -/
theorem can_execute_open (reco t : Int) (s : CircuitBreakerState) :
    ((can_execute reco t s).2).state = .OPEN → s.state = .OPEN := by
  obtain ⟨st, fc, lft, hoc⟩ := s
  cases st <;> cases lft <;> simp [can_execute, check_transition]

/-- No breaker operation clears `last_failure_time`; only `record_failure`
sets it. -/
theorem cbRun_last_failure (th : Nat) (reco : Int) :
    ∀ (tr : List CBEvent) (s : CircuitBreakerState),
      (cbRun th reco s tr).last_failure_time =
        lastFailureAt s.last_failure_time tr := by
  intro tr
  induction tr with
  | nil => intro s; rfl
  | cons e tr ih =>
    intro s
    rw [cbRun_cons, ih]
    cases e with
    | success => simp [cbStep, lastFailureAt, record_success_lft]
    | failure t => simp [cbStep, lastFailureAt, record_failure_lft]
    | canExec t => simp [cbStep, lastFailureAt, can_execute_lft]

/-- Trace invariant of the breaker: while CLOSED, `failure_count` is the
number of consecutive failures recorded since the last success, and while
OPEN a last-failure timestamp is always present. -/
theorem cbRun_closed_inv (th : Nat) (reco : Int) :
    ∀ (tr : List CBEvent) (s : CircuitBreakerState) (n : Nat),
      (s.state = .CLOSED → s.failure_count = n) →
      (s.state = .OPEN → s.last_failure_time ≠ none) →
      ((cbRun th reco s tr).state = .CLOSED →
        (cbRun th reco s tr).failure_count = consecFailures n tr)
      ∧ ((cbRun th reco s tr).state = .OPEN →
        (cbRun th reco s tr).last_failure_time ≠ none) := by
  intro tr
  induction tr with
  | nil => intro s n h1 h2; exact ⟨h1, h2⟩
  | cons e tr ih =>
    intro s n h1 h2
    cases e with
    | success =>
      have ha : (record_success s).state = .CLOSED →
          (record_success s).failure_count = 0 :=
        record_success_closed_fc s
      have hb : (record_success s).state = .OPEN →
          (record_success s).last_failure_time ≠ none := by
        intro h
        rw [record_success_lft]
        exact h2 (record_success_open s h)
      have := ih (record_success s) 0 ha hb
      simpa [cbRun_cons, cbStep, consecFailures] using this
    | failure t =>
      have ha : (record_failure th t s).state = .CLOSED →
          (record_failure th t s).failure_count = n + 1 := by
        intro h
        rw [(record_failure_closed th t s h).2,
            h1 (record_failure_closed th t s h).1]
      have hb : (record_failure th t s).state = .OPEN →
          (record_failure th t s).last_failure_time ≠ none := by
        intro _
        rw [record_failure_lft]
        simp
      have := ih (record_failure th t s) (n + 1) ha hb
      simpa [cbRun_cons, cbStep, consecFailures] using this
    | canExec t =>
      have ha : ((can_execute reco t s).2).state = .CLOSED →
          ((can_execute reco t s).2).failure_count = n := by
        intro h
        rw [(can_execute_closed reco t s h).2,
            h1 (can_execute_closed reco t s h).1]
      have hb : ((can_execute reco t s).2).state = .OPEN →
          ((can_execute reco t s).2).last_failure_time ≠ none := by
        intro h
        rw [can_execute_lft]
        exact h2 (can_execute_open reco t s h)
      have := ih ((can_execute reco t s).2) n ha hb
      simpa [cbRun_cons, cbStep, consecFailures] using this


/-- Successes keep a CLOSED breaker CLOSED. -/
theorem cbRun_success_closed (th : Nat) (reco : Int) :
    ∀ (k : Nat) (s : CircuitBreakerState), s.state = .CLOSED →
      (cbRun th reco s (List.replicate k .success)).state = .CLOSED := by
  intro k
  induction k with
  | zero => intro s hs; exact hs
  | succ k ih =>
    intro s hs
    rw [List.replicate_succ, cbRun_cons]
    refine ih _ ?_
    unfold cbStep record_success
    cases h : s.state <;> simp_all

/-- From HALF_OPEN with at most 2 recorded trial successes, a run of `k`
consecutive successes closes the breaker exactly when the total reaches
3. -/
theorem cbRun_half_open_successes (th : Nat) (reco : Int) :
    ∀ (k : Nat) (s : CircuitBreakerState), s.state = .HALF_OPEN →
      s.half_open_call_count ≤ 2 →
      ((cbRun th reco s (List.replicate k .success)).state = .CLOSED ↔
        3 ≤ s.half_open_call_count + k) := by
  intro k
  induction k with
  | zero =>
    intro s hs hle
    rw [List.replicate_zero]
    constructor
    · intro h
      have h2 : s.state = .CLOSED := h
      rw [hs] at h2
      cases h2
    · intro h3
      omega
  | succ k ih =>
    intro s hs hle
    obtain ⟨st, fc, lft, hoc⟩ := s
    simp only at hs hle
    subst hs
    dsimp only at hle ⊢
    rw [List.replicate_succ, cbRun_cons]
    have hstep : cbStep th reco ⟨.HALF_OPEN, fc, lft, hoc⟩ .success =
        (if 3 ≤ hoc + 1 then ⟨.CLOSED, 0, lft, hoc + 1⟩
         else ⟨.HALF_OPEN, fc, lft, hoc + 1⟩ : CircuitBreakerState) := by
      simp [cbStep, record_success]
    rw [hstep]
    by_cases h3 : 3 ≤ hoc + 1
    · rw [if_pos h3]
      rw [cbRun_success_closed th reco k ⟨.CLOSED, 0, lft, hoc + 1⟩ rfl]
      constructor
      · intro _; omega
      · intro _; rfl
    · rw [if_neg h3]
      have := ih ⟨.HALF_OPEN, fc, lft, hoc + 1⟩ rfl
        (by show hoc + 1 ≤ 2; omega)
      dsimp only at this
      rw [this]
      omega

/-- `can_execute` on an OPEN breaker: refuses exactly while the recovery
timeout has not yet elapsed since the stored last failure, and enters
HALF_OPEN with a fresh trial counter once it has. -/
theorem can_execute_from_open (reco tN : Int) (s : CircuitBreakerState)
    (hop : s.state = .OPEN) (t0 : Int)
    (hl : s.last_failure_time = some t0) :
    ((can_execute reco tN s).1 = false ↔ tN - t0 < reco)
    ∧ (reco ≤ tN - t0 →
        (can_execute reco tN s).2.state = .HALF_OPEN
        ∧ (can_execute reco tN s).2.half_open_call_count = 0) := by
  obtain ⟨st, fc, lft, hoc⟩ := s
  simp only at hop hl
  subst hop
  subst hl
  by_cases hrec : reco ≤ tN - t0
  · have hnlt : ¬ (tN - t0 < reco) := by omega
    constructor
    · simp [can_execute, check_transition, hrec, hnlt]
    · intro _
      simp [can_execute, check_transition, hrec]
  · have hlt : tN - t0 < reco := by omega
    constructor
    · simp [can_execute, check_transition, hrec, hlt]
    · intro h
      exact absurd h hrec

/-- C9: the circuit-breaker state machine.  Along any call sequence from a
fresh per-target state: the stored last-failure time is that of the most
recent recorded failure; while CLOSED the failure counter equals the
number of consecutive failures and one more failure opens the breaker
exactly when that count reaches the threshold; while OPEN, `can_execute`
refuses exactly until the recovery timeout has elapsed since the last
failure, and then moves the state to HALF_OPEN with a fresh trial counter;
from a freshly entered HALF_OPEN state, 3 consecutive successes (and no
fewer) restore CLOSED, while any single failure reopens the breaker. -/
theorem C9_circuit_breaker_transitions (th : Nat) (reco : Int)
    (tr : List CBEvent) :
    (cbRun th reco cbInit tr).last_failure_time = lastFailureAt none tr
    ∧ ((cbRun th reco cbInit tr).state = .CLOSED →
        (cbRun th reco cbInit tr).failure_count = consecFailures 0 tr
        ∧ ∀ t, ((record_failure th t (cbRun th reco cbInit tr)).state
                  = .OPEN ↔ th ≤ consecFailures 0 tr + 1))
    ∧ ((cbRun th reco cbInit tr).state = .OPEN →
        ∃ t0, (cbRun th reco cbInit tr).last_failure_time = some t0
        ∧ ∀ tN,
            ((can_execute reco tN (cbRun th reco cbInit tr)).1 = false ↔
              tN - t0 < reco)
            ∧ (reco ≤ tN - t0 →
                (can_execute reco tN (cbRun th reco cbInit tr)).2.state
                  = .HALF_OPEN
                ∧ (can_execute reco tN
                    (cbRun th reco cbInit tr)).2.half_open_call_count = 0))
    ∧ (∀ s' : CircuitBreakerState, s'.state = .HALF_OPEN →
        (s'.half_open_call_count = 0 →
          ∀ k, ((cbRun th reco s' (List.replicate k .success)).state
                  = .CLOSED ↔ 3 ≤ k))
        ∧ ∀ t, (record_failure th t s').state = .OPEN) := by
  have hinv := cbRun_closed_inv th reco tr cbInit 0
    (fun _ => rfl) (by intro h; cases h)
  refine ⟨?_, ?_, ?_, ?_⟩
  · simpa using cbRun_last_failure th reco tr cbInit
  · intro hcl
    have hfc := hinv.1 hcl
    refine ⟨hfc, fun t => ?_⟩
    unfold record_failure
    rw [hfc]
    by_cases hth : th ≤ consecFailures 0 tr + 1
    · rw [if_pos (by simp [hcl]; omega)]
      simpa using hth
    · rw [if_neg (by simp [hcl]; omega)]
      simp only [hcl]
      constructor
      · intro h; cases h
      · omega
  · intro hop
    have hlft := hinv.2 hop
    cases hl : (cbRun th reco cbInit tr).last_failure_time with
    | none => exact absurd hl hlft
    | some t0 =>
      exact ⟨t0, rfl, fun tN =>
        can_execute_from_open reco tN (cbRun th reco cbInit tr) hop t0 hl⟩
  · intro s' hs'
    refine ⟨fun h0 k => ?_, fun t => ?_⟩
    · have := cbRun_half_open_successes th reco k s' hs' (by omega)
      simpa [h0] using this
    · unfold record_failure
      rw [if_pos (Or.inl (by simp [hs']))]

/-- Witness for C9: four failures with threshold 5 keep the breaker
CLOSED, and a fifth opens it; after the recovery timeout `can_execute`
moves an OPEN breaker to HALF_OPEN. -/
theorem C9_circuit_breaker_transitions_witness :
    (record_failure 5 9
      (cbRun 5 30 cbInit
        [CBEvent.failure 0, CBEvent.failure 1, CBEvent.failure 2,
         CBEvent.failure 3])).state = CircuitState.OPEN
    ∧ (can_execute 30 100
        (cbRun 5 30 cbInit
          [CBEvent.failure 0, CBEvent.failure 1, CBEvent.failure 2,
           CBEvent.failure 3, CBEvent.failure 4])).2.state
        = CircuitState.HALF_OPEN := by
  constructor
  · exact (((C9_circuit_breaker_transitions 5 30
      [CBEvent.failure 0, CBEvent.failure 1, CBEvent.failure 2,
       CBEvent.failure 3]).2.1 (by decide)).2 9).mpr (by decide)
  · obtain ⟨t0, ht0, hall⟩ := (C9_circuit_breaker_transitions 5 30
      [CBEvent.failure 0, CBEvent.failure 1, CBEvent.failure 2,
       CBEvent.failure 3, CBEvent.failure 4]).2.2.1 (by decide)
    have ht0' : t0 = 4 := by
      have : some t0 = some (4 : Int) := by rw [← ht0]; decide
      simpa using this
    subst ht0'
    exact ((hall 100).2 (by decide)).1

/-- A pattern attempt only yields values inside the validated range. -/
theorem tryPat_range (m : List Char → Option (List Char × Nat))
    (l : List Char) (v : Nat) :
    tryPat m l = some v → 100 ≤ v ∧ v ≤ 10000000 := by
  intro h
  unfold tryPat at h
  split at h
  · cases h
  · split at h
    · cases h
    · split at h
      · cases h
        assumption
      · cases h

/-- `_extract_price` only returns values in `[100, 10_000_000]`. -/
theorem extract_price_range (l : List Char) (v : Nat) :
    extract_price l = some v → 100 ≤ v ∧ v ≤ 10000000 := by
  intro h
  unfold extract_price at h
  split at h
  · rename_i w h1
    cases h
    exact tryPat_range _ _ _ h1
  · split at h
    · rename_i w h2
      cases h
      exact tryPat_range _ _ _ h2
    · exact tryPat_range _ _ _ h

set_option maxHeartbeats 1000000 in
/-- Every record `_extract_product_from_line` produces has a validated
price, a name of 4 to 200 characters, and the current url_index. -/
theorem extractProductFromLine_props (line : List Char) (site : String)
    (c : Nat) (p : Product) :
    extractProductFromLine line site c = some p →
      (∃ n, 100 ≤ n ∧ n ≤ 10000000 ∧ p.price = toString n)
      ∧ 3 < p.name.length ∧ p.name.length ≤ 200 ∧ p.url_index = c := by
  intro h
  unfold extractProductFromLine at h
  split at h
  · cases h
  · rename_i v hp
    split at h
    · cases h
    · rename_i hlong
      cases h
      refine ⟨⟨v, (extract_price_range _ _ hp).1,
        (extract_price_range _ _ hp).2, rfl⟩, ?_, ?_, rfl⟩
      · show 3 < ((extract_product_name (namePricePart line)).take 200).length
        rw [List.length_take]
        omega
      · show ((extract_product_name (namePricePart line)).take 200).length
            ≤ 200
        rw [List.length_take]
        omega

/-- Every record produced by the line loop comes from
`_extract_product_from_line` on some stripped line and context. -/
theorem mem_extractLoop (site : String) :
    ∀ (lines : List (List Char)) (ctx : Nat) (p : Product),
      p ∈ extractLoop site ctx lines →
      ∃ l c, extractProductFromLine l site c = some p := by
  intro lines
  induction lines with
  | nil => intro ctx p h; cases h
  | cons l ls ih =>
    intro ctx p h
    simp only [extractLoop] at h
    split at h
    · exact ih _ _ h
    · split at h
      · split at h
        · exact ih _ _ h
        · exact ih _ _ h
      · split at h
        · exact ih _ _ h
        · split at h
          · rename_i q hq
            rcases List.mem_cons.1 h with rfl | hmem
            · exact ⟨pyStripList l, ctx, hq⟩
            · exact ih _ _ hmem
          · exact ih _ _ h

/-- C4: every record returned by an accepted `extract_stable` run has a
price that parses to an integer in `[100, 10_000_000]` and a cleaned-up
name longer than 3 and at most 200 characters. -/
theorem C4_extract_record_bounds (output scriptName : String)
    (res : ExtractResult)
    (h : extract_stable output scriptName = Except.ok res)
    (p : Product) (hp : p ∈ res.products) :
    (∃ n, 100 ≤ n ∧ n ≤ 10000000 ∧ p.price = toString n)
    ∧ 3 < p.name.length ∧ p.name.length ≤ 200 := by
  unfold extract_stable at h
  split at h
  · cases h
  · split at h
    · cases h
      cases hp
    · cases h
      obtain ⟨l, c, hl⟩ := mem_extractLoop _ _ _ _ hp
      have := extractProductFromLine_props l _ c p hl
      exact ⟨this.1, this.2.1, this.2.2.1⟩

/-- Witness for C4 at the concrete record extracted from
`timeoutPartialOut`. -/
theorem C4_extract_record_bounds_witness :
    (∃ n, 100 ≤ n ∧ n ≤ 10000000 ∧ nikonRecord.price = toString n)
    ∧ 3 < nikonRecord.name.length ∧ nikonRecord.name.length ≤ 200 :=
  C4_extract_record_bounds timeoutPartialOut "hardoff.py"
    { count := 1, success := true, products := [nikonRecord] } (by rfl)
    nikonRecord (by simp)

/-- A line whose stripped form starts with the 13-character
`---URL_INDEX:` literal is at least 13 characters long. -/
theorem marker_isPrefix_length (line : List Char)
    (h : urlMarkerLit.isPrefixOf line = true) : 13 ≤ line.length := by
  have hpre : urlMarkerLit <+: line := List.isPrefixOf_iff_prefix.1 h
  have hlen := hpre.length_le
  have h13 : urlMarkerLit.length = 13 := rfl
  omega

/-- Short lines are never markers. -/
theorem markerOf_none_of_short (l : List Char)
    (h : (pyStripList l).length < 10) : markerOf l = none := by
  unfold markerOf
  rw [if_neg]
  intro hpre
  have := marker_isPrefix_length _ hpre
  omega

/-- A marker line produces no record. -/
theorem recordOf_marker_none (site : String) (c : Nat) (l : List Char)
    (k : Nat) (h : markerOf l = some k) : recordOf site c l = none := by
  unfold markerOf at h
  by_cases hpre : urlMarkerLit.isPrefixOf (pyStripList l)
  · unfold recordOf
    rw [if_neg, if_pos hpre]
    have := marker_isPrefix_length _ hpre
    omega
  · rw [if_neg hpre] at h
    cases h

/-- A record carries the context it was extracted under. -/
theorem recordOf_url_index (site : String) (c : Nat) (l : List Char)
    (p : Product) (h : recordOf site c l = some p) : p.url_index = c := by
  unfold recordOf at h
  split at h
  · cases h
  · split at h
    · cases h
    · split at h
      · cases h
      · exact (extractProductFromLine_props _ _ _ _ h).2.2.2

/-- The per-line loop of the source equals the specification-level
annotate-then-filter description, for every starting context. -/
theorem extractLoop_eq_spec (site : String) :
    ∀ (lines : List (List Char)) (ctx : Nat),
      extractLoop site ctx lines =
        (annotateCtx ctx lines).filterMap
          fun lc => recordOf site lc.2 lc.1 := by
  intro lines
  induction lines with
  | nil => intro ctx; rfl
  | cons l ls ih =>
    intro ctx
    simp only [extractLoop, annotateCtx, List.filterMap_cons]
    by_cases h10 : (pyStripList l).length < 10
    · have hm : markerOf l = none := markerOf_none_of_short l h10
      have hr : recordOf site ctx l = none := by
        unfold recordOf; rw [if_pos h10]
      rw [if_pos h10, hm, hr]
      simp only [Option.getD_none]
      exact ih ctx
    · rw [if_neg h10]
      by_cases hpre : urlMarkerLit.isPrefixOf (pyStripList l)
      · have hr : recordOf site ctx l = none := by
          unfold recordOf; rw [if_neg h10, if_pos hpre]
        have hm : markerOf l = urlIndexSearch (pyStripList l) := by
          unfold markerOf; rw [if_pos hpre]
        rw [if_pos hpre, hm, hr]
        cases urlIndexSearch (pyStripList l) with
        | none => simpa using ih ctx
        | some n => simpa using ih n
      · rw [if_neg hpre]
        have hm : markerOf l = none := by
          unfold markerOf; rw [if_neg hpre]
        by_cases hskip : shouldSkipLine (pyStripList l)
        · have hr : recordOf site ctx l = none := by
            unfold recordOf
            rw [if_neg h10, if_neg hpre, if_pos hskip]
          rw [if_pos hskip, hm, hr]
          simpa using ih ctx
        · have hr : recordOf site ctx l =
              extractProductFromLine (pyStripList l) site ctx := by
            unfold recordOf
            rw [if_neg h10, if_neg hpre, if_neg hskip]
          rw [if_neg hskip, hm, hr]
          cases extractProductFromLine (pyStripList l) site ctx with
          | none => simpa using ih ctx
          | some p => simpa using ih ctx

/-- Annotation splits along list append, threading the folded context. -/
theorem annotateCtx_append :
    ∀ (xs ys : List (List Char)) (c : Nat),
      annotateCtx c (xs ++ ys) =
        annotateCtx c xs ++ annotateCtx (ctxFold c xs) ys := by
  intro xs
  induction xs with
  | nil => intro ys c; rfl
  | cons x xs ih =>
    intro ys c
    simp only [List.cons_append, annotateCtx, List.cons.injEq, true_and]
    exact ih ys ((markerOf x).getD c)

/-- Without markers the folded context never moves. -/
theorem ctxFold_no_marker :
    ∀ (lines : List (List Char)) (c : Nat),
      (∀ l ∈ lines, markerOf l = none) → ctxFold c lines = c := by
  intro lines
  induction lines with
  | nil => intro c _; rfl
  | cons l ls ih =>
    intro c h
    have h1 : markerOf l = none := h l (by simp)
    show ctxFold ((markerOf l).getD c) ls = c
    rw [h1]
    exact ih c fun x hx => h x (by simp [hx])

/-- Without markers the annotation is a constant tagging. -/
theorem annotateCtx_no_marker :
    ∀ (lines : List (List Char)) (c : Nat),
      (∀ l ∈ lines, markerOf l = none) →
      annotateCtx c lines = lines.map fun l => (l, c) := by
  intro lines
  induction lines with
  | nil => intro c _; rfl
  | cons l ls ih =>
    intro c h
    have h1 : markerOf l = none := h l (by simp)
    simp only [annotateCtx, h1, Option.getD_none, List.map_cons,
      List.cons.injEq, true_and]
    exact ih c fun x hx => h x (by simp [hx])

/-- C5: records are tagged with the most recent preceding
`---URL_INDEX:<int>---` marker.  The extraction loop equals the
specification-level description that pairs each line, in input order, with
the context current at that line (so output preserves input line order);
an accepted `extract_stable` returns exactly those records; over a
marker-free ambit the context stays put (so records before any marker
carry 0); and a marker partitions the lines after it (up to the next
marker) to carry its value. -/
theorem C5_url_index_partition (site output scriptName : String) :
    (∀ res, extract_stable output scriptName = Except.ok res →
      (res.success = true →
        res.products =
          specRecords (String.mk (replaceList (".py".data) []
            scriptName.data)) (splitOnList ("\n".data) output.data))
      ∧ (res.success = false → res.products = []))
    ∧ (∀ lines ctx, extractLoop site ctx lines =
        (annotateCtx ctx lines).filterMap fun lc => recordOf site lc.2 lc.1)
    ∧ (∀ lines p, (∀ l ∈ lines, markerOf l = none) →
        p ∈ specRecords site lines → p.url_index = 0)
    ∧ (∀ pre m post k, markerOf m = some k →
        (∀ l ∈ post, markerOf l = none) →
        specRecords site (pre ++ m :: post) =
          specRecords site pre ++ post.filterMap (recordOf site k)) := by
  refine ⟨?_, extractLoop_eq_spec site, ?_, ?_⟩
  · intro res h
    unfold extract_stable at h
    split at h
    · cases h
    · split at h
      · cases h
        exact ⟨fun hs => (Bool.false_ne_true hs).elim, fun _ => rfl⟩
      · cases h
        constructor
        · intro _
          exact extractLoop_eq_spec _ _ 0
        · intro hs
          have : ¬ (0 < (extractLoop
              (String.mk (replaceList (".py".data) [] scriptName.data)) 0
              (splitOnList ("\n".data) output.data)).length) := by
            simpa using hs
          have hlen : (extractLoop
              (String.mk (replaceList (".py".data) [] scriptName.data)) 0
              (splitOnList ("\n".data) output.data)).length = 0 := by
            omega
          exact List.length_eq_zero.1 hlen
  · intro lines p hnone hp
    unfold specRecords at hp
    rw [annotateCtx_no_marker lines 0 hnone, List.filterMap_map] at hp
    obtain ⟨l, _, hl⟩ := List.mem_filterMap.1 hp
    exact recordOf_url_index site 0 l p hl
  · intro pre m post k hm hnone
    unfold specRecords
    rw [annotateCtx_append]
    simp only [List.filterMap_append]
    congr 1
    have h1 : annotateCtx (ctxFold 0 pre) (m :: post) =
        (m, ctxFold 0 pre) :: annotateCtx k post := by
      simp [annotateCtx, hm]
    rw [h1]
    simp only [List.filterMap_cons,
      recordOf_marker_none site (ctxFold 0 pre) m k hm]
    rw [annotateCtx_no_marker post k hnone, List.filterMap_map]
    rfl

/-- Witness for C5 on the raw-stdout scenario of the specification: the
marker sets url_index 1, the noise line is discarded, and
`specRecords` describes the output. -/
theorem C5_url_index_partition_witness :
    extract_stable markerScenario "scan.py" =
      Except.ok { count := 1, success := true, products := [scanRecord] }
    ∧ specRecords "scan"
        (splitOnList ("\n".data) markerScenario.data) = [scanRecord] := by
  refine ⟨by rfl, ?_⟩
  have h := ((C5_url_index_partition "scan" markerScenario "scan.py").1
    { count := 1, success := true, products := [scanRecord] }
    (by rfl)).1 (by rfl)
  exact (by exact h.symm.trans (by rfl) : _)

/-- The cooldown loop keeps every product when the keys of the batch are
pairwise distinct and all pass `should_notify` against the incoming
history. -/
theorem cooldownGo_keeps_all (nkey : Product → String) (now : Int) :
    ∀ (ps : List Product) (h : History),
      (ps.map nkey).Nodup →
      (∀ p ∈ ps, should_notify h now (nkey p)
        NOTIFICATION_COOLDOWN_HOURS = true) →
      (cooldownGo nkey now ps h).1 = ps := by
  intro ps
  induction ps with
  | nil => intro h _ _; rfl
  | cons p ps ih =>
    intro h hnd hfresh
    have hp : should_notify h now (nkey p)
        NOTIFICATION_COOLDOWN_HOURS = true := hfresh p (by simp)
    have hnd' : (∀ x ∈ ps, ¬ nkey x = nkey p) ∧
        (List.map nkey ps).Nodup := by simpa using hnd
    have hne : ∀ q ∈ ps, nkey q ≠ nkey p := fun q hq => hnd'.1 q hq
    have hfresh' : ∀ q ∈ ps,
        should_notify (add_notification h now (nkey p)) now (nkey q)
          NOTIFICATION_COOLDOWN_HOURS = true := by
      intro q hq
      have hkeep : add_notification h now (nkey p) (nkey q) = h (nkey q) := by
        unfold add_notification
        rw [if_neg (hne q hq)]
      unfold should_notify
      rw [hkeep]
      exact hfresh q (by simp [hq])
    simp only [cooldownGo, if_pos hp]
    have := ih (add_notification h now (nkey p)) hnd'.2 hfresh'
    simp [this]

/-- If no product matches the predicate, `findIdx?` finds nothing. -/
theorem findIdx?_none_of_no_match (nkey : Product → String) (key : String)
    (ps : List Product) (h : ∀ p ∈ ps, nkey p ≠ key) :
    (ps.findIdx? fun p => decide (nkey p = key)) = none :=
  List.findIdx?_eq_none_iff.2 fun p hp => by simp [h p hp]

/-- C1 (amended): when the remembered leader key matches no current
record, and additionally the normalized keys of the first
`min(20, len(current))` records are pairwise distinct and none of them is
under notification cooldown, `detect_new_products` returns exactly the
first `min(20, len(current))` records and persists the first current
record as the site's new leader. -/
theorem C1_leader_absent_returns_top20 (nkey : Product → String)
    (now : Int) (site url : String) (p0 : Product) (rest : List Product)
    (data : SnapshotData) (hist : History) (snap : SnapshotEntry)
    (hsnap : data site = some snap)
    (habsent : ∀ p ∈ p0 :: rest, nkey p ≠ snap.first_product_key)
    (hnodup : (((p0 :: rest).take 20).map nkey).Nodup)
    (hfresh : ∀ p ∈ (p0 :: rest).take 20,
      should_notify hist now (nkey p) NOTIFICATION_COOLDOWN_HOURS = true) :
    (detect_new_products nkey now site (p0 :: rest) url data hist).1
      = (p0 :: rest).take 20
    ∧ (detect_new_products nkey now site (p0 :: rest) url data hist).1.length
      = min 20 (p0 :: rest).length
    ∧ (detect_new_products nkey now site (p0 :: rest) url data hist).2.1
        site =
      some { first_product_key := nkey p0, first_product_name := p0.name,
             first_product_price := p0.price, first_product_url := url,
             timestamp := now } := by
  have hkey0 : ¬ (nkey p0 = snap.first_product_key) :=
    habsent p0 (by simp)
  have hfind : ((p0 :: rest).findIdx?
      fun p => decide (nkey p = snap.first_product_key)) = none :=
    findIdx?_none_of_no_match nkey snap.first_product_key _ habsent
  have hgo : (cooldownGo nkey now ((p0 :: rest).take 20) hist).1
      = (p0 :: rest).take 20 :=
    cooldownGo_keeps_all nkey now _ hist hnodup hfresh
  have htake : (p0 :: rest).take 20 = p0 :: rest.take 19 := rfl
  have hcool : (apply_notification_cooldown nkey now
      ((p0 :: rest).take 20) hist).1 = (p0 :: rest).take 20 := by
    unfold apply_notification_cooldown
    rw [if_neg (by rw [htake]; simp), if_neg (by rw [hgo, htake]; simp)]
    exact hgo
  have hdet : detect_new_products nkey now site (p0 :: rest) url data hist
      = ((apply_notification_cooldown nkey now
            ((p0 :: rest).take 20) hist).1,
         update_snapshot nkey now site p0 url data,
         (apply_notification_cooldown nkey now
            ((p0 :: rest).take 20) hist).2) := by
    unfold detect_new_products
    rw [hsnap]
    simp only [if_neg hkey0, hfind]
  refine ⟨?_, ?_, ?_⟩
  · rw [hdet]
    exact hcool
  · rw [hdet]
    simp only [hcool]
    rw [List.length_take]
  · rw [hdet]
    unfold update_snapshot
    simp

/-- Witness for C1 (amended) at a concrete input: a two-record list with
distinct keys, a stale remembered leader and a fresh history. -/
theorem C1_leader_absent_returns_top20_witness :
    (detect_new_products nameKey 500 "AlphaCam" [demoProduct, demoProduct2]
      "u" staleSnapshots emptyHistory).1
      = [demoProduct, demoProduct2].take 20
    ∧ (detect_new_products nameKey 500 "AlphaCam"
        [demoProduct, demoProduct2] "u" staleSnapshots emptyHistory).1.length
      = min 20 ([demoProduct, demoProduct2] : List Product).length
    ∧ (detect_new_products nameKey 500 "AlphaCam"
        [demoProduct, demoProduct2] "u" staleSnapshots emptyHistory).2.1
        "AlphaCam" =
      some { first_product_key := nameKey demoProduct,
             first_product_name := demoProduct.name,
             first_product_price := demoProduct.price,
             first_product_url := "u", timestamp := 500 } :=
  C1_leader_absent_returns_top20 nameKey 500 "AlphaCam" "u" demoProduct
    [demoProduct2] staleSnapshots emptyHistory staleSnap (by rfl)
    (by decide) (by decide) (by decide)

/-- C1 counterexample to the claim as stated: with a remembered leader
absent from the current list, two current records sharing a normalized
key (identical names collide under the source's MD5 of the normalized
name), and an empty notification history, `detect_new_products` returns
only one record, not the first `min(20, len(current)) = 2`: the
notification-cooldown pass deduplicates the batch.  Likewise, a
single-record list whose key was notified within the last 6 hours yields
the empty list instead of that record. -/
theorem C1_counterexample_cooldown_filters :
    staleSnapshots "AlphaCam" = some staleSnap
    ∧ nameKey dupProductA ≠ staleSnap.first_product_key
    ∧ nameKey dupProductB ≠ staleSnap.first_product_key
    ∧ (detect_new_products nameKey 500 "AlphaCam"
        [dupProductA, dupProductB] "u" staleSnapshots emptyHistory).1
      = [dupProductA]
    ∧ (detect_new_products nameKey 500 "AlphaCam"
        [dupProductA, dupProductB] "u" staleSnapshots emptyHistory).1
      ≠ [dupProductA, dupProductB].take 20
    ∧ (detect_new_products nameKey 500 "AlphaCam" [dupProductA] "u"
        staleSnapshots recentHistory).1 = []
    ∧ (detect_new_products nameKey 500 "AlphaCam" [dupProductA] "u"
        staleSnapshots recentHistory).1 ≠ [dupProductA].take 20 := by
  refine ⟨by rfl, by decide, by decide, by decide, by decide, by decide,
    by decide⟩

end MasterController
